import Mathlib

/-
Verification of the library_recommender core against its specification.

Shallow embedding conventions:
* Python strings are modelled as `List Char`; the ASCII fragment of the
  character classes `\w` (word), `\s` (whitespace) and of `str.lower` is
  modelled exactly; non-ASCII letters (umlauts) are carried through
  unchanged, which matches the behaviour on all lower-case German text
  appearing in the program's literals.
* Python floats are modelled as rationals (the constants involved are
  exactly representable and only compared/combined linearly).
* `datetime` values are modelled at day granularity: `PyDate` for calendar
  dates, `Int` (a day count) for the artist blacklist's timestamps.
* Python dicts are modelled as insertion-ordered association lists.
* Fallible operations return `Option`/`Bool` results, as the source does.
-/

namespace LibRec

/-! ## Character classes and string helpers (ASCII fragment of Python `str`) -/

/-- Python `\s` on ASCII text: space, tab, newline, carriage return,
vertical tab, form feed. -/
def isPySpace (c : Char) : Bool :=
  c = ' ' || c = '\t' || c = '\n' || c = '\r' || c = '\x0b' || c = '\x0c'

/-- Python `\w`: ASCII letters, digits and underscore; non-ASCII characters
are modelled as word characters, which is correct for the Unicode letters
(umlauts etc.) occurring in this program's data. -/
def isPyWord (c : Char) : Bool :=
  c.isAlphanum || c = '_' || 0x80 ≤ c.toNat

/-- Python `str.lower` on ASCII text (identity on other characters). -/
def pyLower (s : List Char) : List Char :=
  s.map Char.toLower

/-- Drop the longest whitespace suffix (the tail half of Python `str.strip`). -/
def pyDropEnd : List Char → List Char
  | [] => []
  | c :: rest =>
    match pyDropEnd rest with
    | [] => if isPySpace c then [] else [c]
    | r => c :: r

/-- Python `str.strip()`: remove leading and trailing whitespace. -/
def pyStrip (s : List Char) : List Char :=
  pyDropEnd (s.dropWhile isPySpace)

/-- Python `re.sub(r"\s+", " ", s)`: replace every maximal whitespace run
by a single space. -/
def collapseWs : List Char → List Char
  | [] => []
  | [c] => if isPySpace c then [' '] else [c]
  | c :: d :: rest =>
    if isPySpace c then
      if isPySpace d then collapseWs (d :: rest)
      else ' ' :: collapseWs (d :: rest)
    else c :: collapseWs (d :: rest)

/-- Python `re.sub(r"[^\w\s]", " ", s)`: replace every character that is
neither a word character nor whitespace by a space. -/
def subPunct (s : List Char) : List Char :=
  s.map fun c => if isPyWord c || isPySpace c then c else ' '

/-- Python `s.split(",", 1)`: the parts before and after the first comma
(caller checks that a comma is present). -/
def splitFirstComma : List Char → List Char × List Char
  | [] => ([], [])
  | c :: rest =>
    if c = ',' then ([], rest)
    else (c :: (splitFirstComma rest).1, (splitFirstComma rest).2)

/-- Accumulator worker for `pySplitWs`. -/
def pySplitAux : List Char → List Char → List (List Char)
  | [], acc => if acc = [] then [] else [acc.reverse]
  | c :: rest, acc =>
    if isPySpace c then
      if acc = [] then pySplitAux rest []
      else acc.reverse :: pySplitAux rest []
    else pySplitAux rest (c :: acc)

/-- Python `s.split()` (no separator): split on whitespace runs, dropping
empty tokens. -/
def pySplitWs (s : List Char) : List (List Char) :=
  pySplitAux s []

/-- Does the needle occur at the very start of the haystack? -/
def startsWithList : List Char → List Char → Bool
  | _, [] => true
  | [], _ :: _ => false
  | a :: as, b :: bs => a = b && startsWithList as bs

/-- Python `needle in haystack`: contiguous substring test. -/
def containsSub : List Char → List Char → Bool
  | [], needle => needle.isEmpty
  | h :: t, needle => startsWithList (h :: t) needle || containsSub t needle

/-! ## NameMatcher (src/library/search.py) -/

/-- `normalize_name` (src/library/search.py lines 20-48): reorder a
"Last, First" name, lower-case, strip, replace punctuation by spaces and
collapse whitespace runs.  Note the order of operations: `strip` runs
before the two `re.sub` passes. -/
def normalize_name (name : List Char) : List Char :=
  if name = [] then []
  else
    let n1 := if name.contains ',' then
        pyStrip (splitFirstComma name).2 ++ ' ' :: pyStrip (splitFirstComma name).1
      else name
    collapseWs (subPunct (pyStrip (pyLower n1)))

/-- Jaccard word-set similarity used inside `calculate_name_similarity`
(Python builds `set(...)` from the token lists; `List.dedup` plays that
role, preserving cardinalities). -/
def word_score (n1 n2 : List Char) : ℚ :=
  let words1 := (pySplitWs n1).dedup
  let words2 := (pySplitWs n2).dedup
  let inter := (words1.filter fun w => words2.contains w).length
  let uni := (words1 ++ words2.filter fun w => !(words1.contains w)).length
  if 0 < uni then (inter : ℚ) / (uni : ℚ) else 0

/-- Substring containment bonus of `calculate_name_similarity`. -/
def substring_score (n1 n2 : List Char) : ℚ :=
  if containsSub n1 n2 || containsSub n2 n1 then 0.9 else 0

/-- Python `words_list[-1] if words_list else ""`. -/
def lastTok (n : List Char) : List Char :=
  (pySplitWs n).getLastD []

/-- Python `words_list[0]`. -/
def firstTok (n : List Char) : List Char :=
  (pySplitWs n).headD []

/-- Surname (last token) bonus of `calculate_name_similarity`. -/
def lastname_score (n1 n2 : List Char) : ℚ :=
  if lastTok n1 ≠ [] ∧ lastTok n2 ≠ [] ∧ lastTok n1 = lastTok n2 then 0.95 else 0

/-- Python `words2_list[0] if len(words2) > 1 else ""` where `words2` is
the token set of the second name. -/
def abbrevPart (n2 : List Char) : List Char :=
  if 1 < (pySplitWs n2).dedup.length then firstTok n2 else []

/-- Python `s.endswith(".")` for a nonempty token. -/
def endsWithDot (t : List Char) : Bool :=
  t.getLast? = some '.'

/-- Abbreviation detection of `calculate_name_similarity`
(src/library/search.py lines 102-115): an initial in the second name
together with an equal surname yields the fixed low-confidence score 0.6. -/
def abbreviation_score (n1 n2 : List Char) : ℚ :=
  if 1 ≤ (pySplitWs n2).length then
    if abbrevPart n2 ≠ [] ∧ endsWithDot (abbrevPart n2) then
      if lastTok n1 ≠ [] ∧ lastTok n1 = lastTok n2 then 0.6 else 0
    else 0
  else 0

/-- `calculate_name_similarity` (src/library/search.py lines 51-125).
The whole-string edit similarity `SequenceMatcher(None, a, b).ratio()`
comes from the Python standard library (difflib), outside this
repository; it is abstracted as the parameter `ratio`. -/
def calculate_name_similarity (ratio : List Char → List Char → ℚ)
    (name1 name2 : List Char) : ℚ :=
  if name1 = [] ∨ name2 = [] then 0
  else if name1 = name2 then 1
  else if (pySplitWs name1).dedup = [] ∨ (pySplitWs name2).dedup = [] then ratio name1 name2
  else if 0 < abbreviation_score name1 name2 then abbreviation_score name1 name2
  else
    max (ratio name1 name2 * 0.3 + word_score name1 name2 * 0.4 + substring_score name1 name2 * 0.3)
      (max (lastname_score name1 name2) (substring_score name1 name2))

/-! ## Dates and ordered dictionaries -/

/-- A calendar date (Python `datetime` at day granularity). -/
structure PyDate where
  year : Nat
  month : Nat
  day : Nat
  deriving DecidableEq

/-- Strict chronological order on dates. -/
def dateLt (a b : PyDate) : Bool :=
  a.year < b.year ||
    (a.year = b.year && (a.month < b.month || (a.month = b.month && a.day < b.day)))

/-- Non-strict chronological order on dates. -/
def dateLe (a b : PyDate) : Bool :=
  dateLt a b || a == b

/-- Gregorian leap-year rule (as used by `datetime.strptime` validation). -/
def isLeap (y : Nat) : Bool :=
  (y % 4 = 0 && y % 100 ≠ 0) || y % 400 = 0

/-- Number of days of a month. -/
def daysInMonth (y m : Nat) : Nat :=
  if m = 2 then (if isLeap y then 29 else 28)
  else if m = 4 || m = 6 || m = 9 || m = 11 then 30
  else 31

/-- Validity check performed by `datetime.strptime(..., "%d/%m/%Y")`. -/
def validDate (y m d : Nat) : Bool :=
  1 ≤ y && y ≤ 9999 && 1 ≤ m && m ≤ 12 && 1 ≤ d && d ≤ daysInMonth y m

/-- Lookup in an insertion-ordered association list (a Python dict). -/
def dictGet {β : Type} : List (List Char × β) → List Char → Option β
  | [], _ => none
  | (k1, v) :: rest, k => if k1 = k then some v else dictGet rest k

/-- Python `d[k] = v`: replace in place, or append a new key at the end. -/
def dictSet {β : Type} : List (List Char × β) → List Char → β → List (List Char × β)
  | [], k, v => [(k, v)]
  | (k1, v1) :: rest, k, v =>
    if k1 = k then (k1, v) :: rest else (k1, v1) :: dictSet rest k v

/-- Python `d.get(k, dflt)`. -/
def dictGetD {β : Type} (d : List (List Char × β)) (k : List Char) (dflt : β) : β :=
  match dictGet d k with
  | some v => v
  | none => dflt

/-! ## BorrowedBlacklist (src/utils/borrowed_blacklist.py) -/

/-- One entry of the borrowed-media blacklist.  Entries created by
`borrowed_add` always carry a valid return date, so the source's repair
branches for missing/unparseable stored dates are unreachable and omitted. -/
structure BorrowedEntry where
  title : List Char
  author : List Char
  media_type : List Char
  return_date : PyDate
  added_at : PyDate
  availability_text : List Char
  deriving DecidableEq

/-- `BorrowedBlacklist._create_key`: `f"{title}_{author}".lower().strip()`. -/
def borrowedKey (title author : List Char) : List Char :=
  pyStrip (pyLower (title ++ '_' :: author))

/-- The numeric value of an ASCII digit. -/
def digitVal (c : Char) : Nat :=
  c.toNat - 48

/-- Match `(\d{2})/(\d{2})/(\d{4})` at the start of the text, returning
(day, month, year). -/
def parseDdMmYyyy : List Char → Option (Nat × Nat × Nat)
  | d1 :: d2 :: '/' :: m1 :: m2 :: '/' :: y1 :: y2 :: y3 :: y4 :: _ =>
    if d1.isDigit && d2.isDigit && m1.isDigit && m2.isDigit &&
        y1.isDigit && y2.isDigit && y3.isDigit && y4.isDigit then
      some (digitVal d1 * 10 + digitVal d2, digitVal m1 * 10 + digitVal m2,
        digitVal y1 * 1000 + digitVal y2 * 100 + digitVal y3 * 10 + digitVal y4)
    else none
  | _ => none

/-- Match the regex `bis\s+(\d{2})/(\d{2})/(\d{4})` at the start of the
text.  The greedy `\s+` is equivalent to "at least one whitespace, then
drop all whitespace" because whitespace and digits are disjoint. -/
def matchBisAt : List Char → Option (Nat × Nat × Nat)
  | 'b' :: 'i' :: 's' :: rest =>
    match rest with
    | [] => none
    | r :: _ => if isPySpace r then parseDdMmYyyy (rest.dropWhile isPySpace) else none
  | _ => none

/-- `re.search` for the pattern above: leftmost match wins. -/
def scanBis : List Char → Option (Nat × Nat × Nat)
  | [] => none
  | c :: rest =>
    match matchBisAt (c :: rest) with
    | some v => some v
    | none => scanBis rest

/-- `BorrowedBlacklist.extract_return_date` (lines 84-126): find
"bis DD/MM/YYYY" in the availability text and validate it as a date. -/
def extract_return_date (availability_text : List Char) : Option PyDate :=
  if availability_text = [] then none
  else
    match scanBis availability_text with
    | none => none
    | some (d, m, y) => if validDate y m d then some ⟨y, m, d⟩ else none

/-- `BorrowedBlacklist.is_blacklisted` (lines 128-168): blocked exactly
while today is strictly before the stored return date. -/
def borrowed_is_blacklisted (store : List (List Char × BorrowedEntry))
    (title author : List Char) (today : PyDate) : Bool :=
  match dictGet store (borrowedKey title author) with
  | none => false
  | some e => if dateLe e.return_date today then false else true

/-- `BorrowedBlacklist.add_to_blacklist` (lines 170-217): refuse (and leave
the store unchanged) when no return date can be extracted; otherwise store
the entry, keeping the earlier return date if the key already exists. -/
def borrowed_add (store : List (List Char × BorrowedEntry))
    (title author media_type availability_text : List Char) (today : PyDate) :
    Bool × List (List Char × BorrowedEntry) :=
  match extract_return_date availability_text with
  | none => (false, store)
  | some rd =>
    let key := borrowedKey title author
    let rd2 := match dictGet store key with
      | some e => if dateLt rd e.return_date then rd else e.return_date
      | none => rd
    (true, dictSet store key ⟨title, author, media_type, rd2, today, availability_text.take 300⟩)

/-! ## ArtistBlacklist (src/utils/artist_blacklist.py) -/

/-- One entry of the artist blacklist; timestamps are day counts. -/
structure ArtistEntry where
  artist_name : List Char
  song_count : Nat
  reason : List Char
  added_at : Int
  last_checked : Int
  check_count : Nat
  deriving DecidableEq

/-- The normalized key: `artist_name.lower().strip()`. -/
def artistKey (artist_name : List Char) : List Char :=
  pyStrip (pyLower artist_name)

/-- `ArtistBlacklist.is_blacklisted` (lines 86-126): an entry blocks while
fewer than `RECHECK_INTERVAL_DAYS = 365` days have passed since its last
check. -/
def artist_is_blacklisted (store : List (List Char × ArtistEntry))
    (artist_name : List Char) (now : Int) : Bool :=
  match dictGet store (artistKey artist_name) with
  | none => false
  | some e => if 365 ≤ now - e.last_checked then false else true

/-- `ArtistBlacklist.add_to_blacklist` (lines 128-165): an existing key has
its `last_checked` refreshed and its `check_count` incremented; a fresh key
gets a new entry with `check_count = 1`. -/
def artist_add_to_blacklist (store : List (List Char × ArtistEntry))
    (artist_name : List Char) (song_count : Nat) (reason : List Char) (now : Int) :
    List (List Char × ArtistEntry) :=
  let key := artistKey artist_name
  match dictGet store key with
  | some e => dictSet store key { e with last_checked := now, check_count := e.check_count + 1 }
  | none => dictSet store key ⟨artist_name, song_count, reason, now, now, 1⟩

/-! ## NotFound Blacklist (src/utils/blacklist.py) -/

/-- A candidate item (`{title, author, type, source}` dict); the dict key
"type" is spelled `typ`. -/
structure Item where
  title : List Char
  author : List Char
  typ : List Char
  source : List Char
  deriving DecidableEq

/-- One entry of a category's not-found blacklist. -/
structure NFEntry where
  title : List Char
  author : List Char
  typ : List Char
  reason : List Char
  added_at : PyDate
  deriving DecidableEq

/-- The three per-category blacklists held by `Blacklist.__init__`. -/
structure Blacklists where
  films : List NFEntry
  albums : List NFEntry
  books : List NFEntry
  deriving DecidableEq

/-- Category lookup; unknown categories yield `none` (the source logs a
warning and treats them as empty/no-op). -/
def blacklistsGet (b : Blacklists) (category : List Char) : Option (List NFEntry) :=
  if category = "films".data then some b.films
  else if category = "albums".data then some b.albums
  else if category = "books".data then some b.books
  else none

/-- Category update (no-op on unknown categories). -/
def blacklistsSet (b : Blacklists) (category : List Char) (l : List NFEntry) : Blacklists :=
  if category = "films".data then { b with films := l }
  else if category = "albums".data then { b with albums := l }
  else if category = "books".data then { b with books := l }
  else b

/-- The per-entry comparison of `Blacklist.is_blacklisted` (lines 94-125):
equal normalized titles, and a title-only match suffices whenever either
side's author is empty. -/
def nfMatches (e : NFEntry) (item : Item) : Bool :=
  pyStrip (pyLower e.title) == pyStrip (pyLower item.title) &&
    (pyStrip (pyLower item.author) == [] || pyStrip (pyLower e.author) == [] ||
      pyStrip (pyLower e.author) == pyStrip (pyLower item.author))

/-- `Blacklist.is_blacklisted` (lines 94-125). -/
def nf_is_blacklisted (b : Blacklists) (category : List Char) (item : Item) : Bool :=
  match blacklistsGet b category with
  | none => false
  | some l => l.any fun e => nfMatches e item

/-- `Blacklist.add_to_blacklist` (lines 127-157): append a new entry unless
the item is already blacklisted. -/
def nf_add_to_blacklist (b : Blacklists) (category : List Char) (item : Item)
    (reason : List Char) (today : PyDate) : Blacklists :=
  match blacklistsGet b category with
  | none => b
  | some l =>
    if nf_is_blacklisted b category item then b
    else blacklistsSet b category (l ++ [⟨item.title, item.author, item.typ, reason, today⟩])

/-! ## SuggestionState (src/recommender/state.py) -/

/-- `AppState`: per-category suggested (ephemeral) and rejected
(persistent) item lists, keyed by category name. -/
structure AppState where
  suggested : List (List Char × List Item)
  rejected : List (List Char × List Item)
  deriving DecidableEq

/-- Case-insensitive title comparison used throughout `AppState`. -/
def titleMatches (a b : Item) : Bool :=
  pyLower a.title == pyLower b.title

/-- `AppState.is_already_suggested` (lines 62-80). -/
def is_already_suggested (st : AppState) (category : List Char) (item : Item) : Bool :=
  ((dictGetD st.suggested category []).any fun x => titleMatches x item) ||
    ((dictGetD st.rejected category []).any fun x => titleMatches x item)

/-- `AppState.mark_suggested` (lines 82-91): append unless an item with the
same case-insensitive title is already present. -/
def mark_suggested (st : AppState) (category : List Char) (item : Item) : AppState :=
  let l := dictGetD st.suggested category []
  if l.any fun x => titleMatches x item then { st with suggested := dictSet st.suggested category l }
  else { st with suggested := dictSet st.suggested category (l ++ [item]) }

/-! ## Catalog search wrapper (src/library/search.py lines 553-616) -/

/-- A catalog hit; only the fields the recommender reads are modelled. -/
structure Hit where
  title : List Char
  zentralbibliothek_info : List Char
  deriving DecidableEq

/-- `KoelnLibrarySearch.search`: the try-block body (HTTP transport plus
HTML parsing, both external collaborators per the spec) is abstracted as
`attempt`; the surrounding `except requests.exceptions.RequestException`
and `except Exception` handlers turn every raised error into an empty
result list. -/
def koeln_search (attempt : List Char → Except (List Char) (List Hit))
    (search_term : List Char) : List Hit :=
  match attempt search_term with
  | Except.ok hits => hits
  | Except.error _ => []

/-! ## BalancedRecommender (src/recommender/recommender.py) -/

/-- The mutable state that one `_pick_balanced_items` run threads through:
`AppState`, the not-found `Blacklist` and the `BorrowedBlacklist`. -/
structure SelState where
  app : AppState
  notFound : Blacklists
  borrowed : List (List Char × BorrowedEntry)
  deriving DecidableEq

/-- Source-label folding of `_get_items_by_source` (lines 53-80):
personalized labels containing "Interessant für dich" collapse into the
single bucket "Personalisiert". -/
def bucketOf (source : List Char) : List Char :=
  if containsSub source "Interessant für dich".data then "Personalisiert".data else source

/-- `defaultdict(list)` append used by `_get_items_by_source`. -/
def dictAppendItem : List (List Char × List Item) → List Char → Item → List (List Char × List Item)
  | [], k, v => [(k, [v])]
  | (k1, vs) :: rest, k, v =>
    if k1 = k then (k1, vs ++ [v]) :: rest else (k1, vs) :: dictAppendItem rest k v

/-- `Recommender._get_items_by_source` (lines 53-80). -/
def get_items_by_source (items : List Item) : List (List Char × List Item) :=
  items.foldl (fun d item => dictAppendItem d (bucketOf item.source) item) []

/-- `Recommender._truncate_text` (lines 285-300). -/
def truncate_text (text : List Char) (max_length : Nat) : List Char :=
  if text.length ≤ max_length then text
  else pyStrip (text.take (max_length - 3)) ++ "...".data

/-- The query string built by `_check_availability` (lines 198-201): books
put the author first, every other media type puts the title first. -/
def build_query (item : Item) : List Char :=
  if item.typ = "Buch".data then pyStrip (item.author ++ ' ' :: item.title ++ ' ' :: item.typ)
  else pyStrip (item.title ++ ' ' :: item.author ++ ' ' :: item.typ)

/-- Python `", ".join(infos)`. -/
def joinCommaSpace : List (List Char) → List Char
  | [] => []
  | [x] => x
  | x :: y :: rest => x ++ ',' :: ' ' :: joinCommaSpace (y :: rest)

/-- Availability classification of `_check_availability` (lines 242-248):
"verfügbar" occurs in the lower-cased availability text. -/
def hitAvailable (h : Hit) : Bool :=
  containsSub (pyLower h.zentralbibliothek_info) "verfügbar".data

/-- Borrowed classification (the `elif` branch): not available, and
"entliehen" occurs in the lower-cased availability text. -/
def hitBorrowed (h : Hit) : Bool :=
  !hitAvailable h && containsSub (pyLower h.zentralbibliothek_info) "entliehen".data

/-- The per-borrowed-hit registration loop of `_check_availability`
(lines 251-263), best effort: a failed date extraction is ignored. -/
def addBorrowedHits (item : Item) (today : PyDate) :
    List (List Char × BorrowedEntry) → List Hit → List (List Char × BorrowedEntry)
  | store, [] => store
  | store, h :: rest =>
    addBorrowedHits item today
      (borrowed_add store h.title item.author item.typ h.zentralbibliothek_info today).2 rest

/-- `Recommender._check_availability` (lines 174-283).  Returns the
mutated state together with the accepted item (the original candidate plus
the 300-character-capped concatenation of all availability texts), or
`none`. -/
def check_availability (search : List Char → List Hit) (today : PyDate)
    (category : List Char) (st : SelState) (item : Item) :
    SelState × Option (Item × List Char) :=
  if borrowed_is_blacklisted st.borrowed item.title item.author today then (st, none)
  else
    let hits := search (build_query item)
    if hits = [] then
      let b1 := nf_add_to_blacklist st.notFound category item
        "Keine Treffer in Bibliothekskatalog".data today
      ({ st with notFound := b1 }, none)
    else
      let hits2 := if category = "films".data then
          hits.filter fun h => containsSub h.zentralbibliothek_info "Uv".data
        else hits
      if category = "films".data ∧ hits2 = [] then
        let b2 := nf_add_to_blacklist st.notFound category item
          "Keine Film-Treffer (fehlendes Uv Kürzel)".data today
        ({ st with notFound := b2 }, none)
      else
        let st2 := { st with borrowed := addBorrowedHits item today st.borrowed (hits2.filter hitBorrowed) }
        if hits2.any hitAvailable then
          (st2, some (item, truncate_text (joinCommaSpace (hits2.map Hit.zentralbibliothek_info)) 300))
        else (st2, none)

/-- The inner `for item in source_items` loop of `_pick_balanced_items`
(lines 130-152): skip suggested/blacklisted candidates, stop at the first
availability success, and keep all blacklist mutations made on the way. -/
def scanItems (search : List Char → List Hit) (today : PyDate) (category : List Char) :
    SelState → List Item → SelState × Option (Item × List Char)
  | st, [] => (st, none)
  | st, item :: rest =>
    if is_already_suggested st.app category item then scanItems search today category st rest
    else if nf_is_blacklisted st.notFound category item then scanItems search today category st rest
    else
      match check_availability search today category st item with
      | (st2, some acc) => (st2, some acc)
      | (st2, none) => scanItems search today category st2 rest

/-- The loop state of `_pick_balanced_items`: accepted items, per-source
accepted counts, the rotating source list, the rotation index and the
threaded stores. -/
structure LoopState where
  selected : List (Item × List Char)
  counts : List (List Char × Nat)
  sources : List (List Char)
  source_index : Nat
  st : SelState

/-- The `while` loop of `_pick_balanced_items` (lines 117-165); the fuel
argument is the source's `max_iterations` bound. -/
def pickLoop (search : List Char → List Hit) (today : PyDate) (category : List Char)
    (itemsBySource : List (List Char × List Item)) (n items_per_source : Nat) :
    Nat → LoopState → LoopState
  | 0, ls => ls
  | fuel + 1, ls =>
    if ls.selected.length < n then
      match ls.sources with
      | [] => ls
      | s0 :: ss =>
        let cur := (s0 :: ss).getD (ls.source_index % (s0 :: ss).length) s0
        if items_per_source ≤ dictGetD ls.counts cur 0 then
          pickLoop search today category itemsBySource n items_per_source fuel
            { ls with source_index := ls.source_index + 1 }
        else
          match scanItems search today category ls.st (dictGetD itemsBySource cur []) with
          | (st2, some acc) =>
            pickLoop search today category itemsBySource n items_per_source fuel
              { selected := ls.selected ++ [acc],
                counts := dictSet ls.counts cur (dictGetD ls.counts cur 0 + 1),
                sources := s0 :: ss,
                source_index := ls.source_index + 1,
                st := { st2 with app := mark_suggested st2.app category acc.1 } }
          | (st2, none) =>
            let sources2 := (s0 :: ss).erase cur
            if sources2 = [] then { ls with st := st2, sources := sources2 }
            else
              pickLoop search today category itemsBySource n items_per_source fuel
                { ls with st := st2, sources := sources2, source_index := ls.source_index + 1 }
    else ls

/-- `Recommender._pick_balanced_items` (lines 82-172), the implementation
of the spec's `BalancedRecommender.select`. -/
def pick_balanced_items (search : List Char → List Hit) (today : PyDate) (st : SelState)
    (items : List Item) (category : List Char) (n items_per_source : Nat) :
    List (Item × List Char) :=
  let itemsBySource := get_items_by_source items
  if itemsBySource = [] then []
  else
    let sources := itemsBySource.map Prod.fst
    (pickLoop search today category itemsBySource n items_per_source (n * sources.length * 2)
      { selected := [], counts := [], sources := sources, source_index := 0, st := st }).selected

/-- Variant of `pick_balanced_items` that also exposes the final loop
state (per-source counts and the mutated stores), for stating invariants
and the spec's observability claims. -/
def pick_balanced_run (search : List Char → List Hit) (today : PyDate) (st : SelState)
    (items : List Item) (category : List Char) (n items_per_source : Nat) : LoopState :=
  let itemsBySource := get_items_by_source items
  let sources := itemsBySource.map Prod.fst
  pickLoop search today category itemsBySource n items_per_source (n * sources.length * 2)
    { selected := [], counts := [], sources := sources, source_index := 0, st := st }

/-! ## Result ranking (src/library/search.py lines 324-402) -/

/-- The score annotation `filter_results_by_author` writes into an
accepted hit; `title_match_score` is only set when an expected title was
supplied. -/
structure Ann where
  author_match_score : ℚ
  title_match_score : Option ℚ
  combined_score : ℚ
  author_match_field : List Char

/-- Python `x.get("combined_score", 0.0)`, the sort key. -/
def combinedKey (x : Hit × Option Ann) : ℚ :=
  match x.2 with
  | some a => a.combined_score
  | none => 0

/-- Python truthiness of the optional `expected_title` parameter (both
`None` and the empty string are falsy). -/
def truthyTitle : Option (List Char) → Bool
  | some t => !t.isEmpty
  | none => false

/-- The per-hit body of `filter_results_by_author` (lines 353-395).
`check_author_match` (lines 209-321) is abstracted as the collaborator
`cam`, returning the `(match_found, author_similarity, matched_field)`
triple; the statements below hold for every such collaborator, hence for
the concrete one. -/
def filterStep (cam : Hit → Bool × ℚ × List Char) (ratio : List Char → List Char → ℚ)
    (expected_title : Option (List Char)) (threshold : ℚ) (r : Hit) :
    Option (Hit × Option Ann) :=
  let title_similarity : ℚ :=
    if truthyTitle expected_title && !r.title.isEmpty then
      calculate_name_similarity ratio (normalize_name (expected_title.getD []))
        (normalize_name r.title)
    else 0
  if truthyTitle expected_title then
    if threshold ≤ (cam r).2.1 * 0.6 + title_similarity * 0.4 ∨ (0.95 : ℚ) ≤ title_similarity then
      some (r, some ⟨(cam r).2.1, some title_similarity,
        (cam r).2.1 * 0.6 + title_similarity * 0.4, (cam r).2.2⟩)
    else none
  else if (cam r).1 then some (r, some ⟨(cam r).2.1, none, (cam r).2.1, (cam r).2.2⟩)
  else none

/-- Stable insertion (descending by key): a new element goes before every
element whose key is not strictly greater. -/
def insertDesc {α : Type} (key : α → ℚ) (x : α) : List α → List α
  | [] => [x]
  | y :: ys => if key x < key y then y :: insertDesc key x ys else x :: y :: ys

/-- Stable descending sort; extensionally equal to Python's stable
`list.sort(key=..., reverse=True)` (stable sorts over the same key agree). -/
def sortDesc {α : Type} (key : α → ℚ) : List α → List α
  | [] => []
  | x :: xs => insertDesc key x (sortDesc key xs)

/-- `filter_results_by_author` (lines 324-402). -/
def filter_results_by_author (cam : Hit → Bool × ℚ × List Char)
    (ratio : List Char → List Char → ℚ) (results : List Hit)
    (expected_author : List Char) (expected_title : Option (List Char))
    (threshold : ℚ) : List (Hit × Option Ann) :=
  if expected_author = [] then results.map fun h => (h, none)
  else sortDesc combinedKey (results.filterMap (filterStep cam ratio expected_title threshold))

/-- The title similarity a hit receives (0 when no expected title was
supplied or the hit has an empty title). -/
def titleSimOf (ratio : List Char → List Char → ℚ) (expected_title : Option (List Char))
    (r : Hit) : ℚ :=
  if truthyTitle expected_title && !r.title.isEmpty then
    calculate_name_similarity ratio (normalize_name (expected_title.getD []))
      (normalize_name r.title)
  else 0

/-- The acceptance condition of `filter_results_by_author`, as the spec
states it: with an expected title, accept iff
0.6*authorScore + 0.4*titleScore clears the threshold or titleScore is at
least 0.95; without one, accept iff the author match was found. -/
def acceptedBy (cam : Hit → Bool × ℚ × List Char) (ratio : List Char → List Char → ℚ)
    (expected_title : Option (List Char)) (threshold : ℚ) (r : Hit) : Bool :=
  if truthyTitle expected_title then
    decide (threshold ≤ (cam r).2.1 * 0.6 + titleSimOf ratio expected_title r * 0.4 ∨
      (0.95 : ℚ) ≤ titleSimOf ratio expected_title r)
  else (cam r).1

/-- The annotation an accepted hit receives. -/
def annOf (cam : Hit → Bool × ℚ × List Char) (ratio : List Char → List Char → ℚ)
    (expected_title : Option (List Char)) (r : Hit) : Hit × Option Ann :=
  if truthyTitle expected_title then
    (r, some ⟨(cam r).2.1, some (titleSimOf ratio expected_title r),
      (cam r).2.1 * 0.6 + titleSimOf ratio expected_title r * 0.4, (cam r).2.2⟩)
  else (r, some ⟨(cam r).2.1, none, (cam r).2.1, (cam r).2.2⟩)

/-- No two adjacent whitespace characters (proof device for the
normalization claims). -/
def noTwoWs : List Char → Bool
  | [] => true
  | [_] => true
  | c :: d :: rest => !(isPySpace c && isPySpace d) && noTwoWs (d :: rest)

/-- The invariant of the selection loop (proof device): bounded size,
per-bucket counts matching the accepted items bucket by bucket, every
accepted title present in the suggested set, and pairwise-distinct
accepted titles. -/
def SelInv (category : List Char) (n items_per_source : Nat)
    (sel : List (Item × List Char)) (counts : List (List Char × Nat)) (st : SelState) : Prop :=
  sel.length ≤ n ∧
  (∀ s, dictGetD counts s 0 ≤ items_per_source) ∧
  (∀ s, (sel.filter fun a => bucketOf a.1.source == s).length = dictGetD counts s 0) ∧
  (∀ a ∈ sel, ∃ x ∈ dictGetD st.app.suggested category [],
    pyLower x.title = pyLower a.1.title) ∧
  sel.Pairwise fun a b => pyLower a.1.title ≠ pyLower b.1.title

/-! ## Concrete fixtures for the selection scenarios -/

/-- A search collaborator that finds one immediately available hit for
every query. -/
def fixtureSearch : List Char → List Hit :=
  fun _ => [⟨"h".data, "verfügbar".data⟩]

/-- Empty stores and empty suggestion state. -/
def fixtureState : SelState :=
  ⟨⟨[], []⟩, ⟨[], [], []⟩, []⟩

/-- A CD candidate with the given title and source. -/
def fixtureItem (t src : List Char) : Item :=
  ⟨t, "au".data, "CD".data, src⟩

/-- Three sources offering 5, 4 and 6 available candidates (each at least
4, as in the spec's scenario). -/
def fixtureItems : List Item :=
  [fixtureItem "a1".data "A".data, fixtureItem "a2".data "A".data,
   fixtureItem "a3".data "A".data, fixtureItem "a4".data "A".data,
   fixtureItem "a5".data "A".data,
   fixtureItem "b1".data "B".data, fixtureItem "b2".data "B".data,
   fixtureItem "b3".data "B".data, fixtureItem "b4".data "B".data,
   fixtureItem "c1".data "C".data, fixtureItem "c2".data "C".data,
   fixtureItem "c3".data "C".data, fixtureItem "c4".data "C".data,
   fixtureItem "c5".data "C".data, fixtureItem "c6".data "C".data]

/-- A transport that raises on the first candidate's query and succeeds
with an available hit on every other query. -/
def fixtureFailAttempt : List Char → Except (List Char) (List Hit) :=
  fun q =>
    if q = build_query (fixtureItem "x1".data "S".data) then Except.error "timeout".data
    else Except.ok [⟨"h".data, "verfügbar".data⟩]

/-! ## Dictionary lemmas -/

theorem dictGet_dictSet_self {β : Type} (d : List (List Char × β)) (k : List Char) (v : β) :
    dictGet (dictSet d k v) k = some v := by
  induction d with
  | nil => simp [dictSet, dictGet]
  | cons p rest ih =>
    by_cases h : p.1 = k
    · simp [dictSet, dictGet, h]
    · simp [dictSet, dictGet, h, ih]

theorem dictGet_dictSet_ne {β : Type} (d : List (List Char × β)) (k k2 : List Char) (v : β)
    (hne : k ≠ k2) : dictGet (dictSet d k v) k2 = dictGet d k2 := by
  induction d with
  | nil => simp [dictSet, dictGet, hne]
  | cons p rest ih =>
    by_cases h : p.1 = k
    · simp [dictSet, dictGet, h, hne]
    · simp [dictSet, dictGet, h, ih]

/-! ## Claim C2 (BorrowedBlacklist.add) -/

/-- Part of claim C2 fails on the code: the availability text
"Borrowed, expected back 08/11/2025" (the spec's English rendering)
contains no occurrence of the lexical marker "bis" that
`extract_return_date` requires, so `add_to_blacklist` returns false and
leaves the store unchanged, while the claim says it returns true. -/
theorem c2_counterexample :
    borrowed_add [] "x".data "y".data "DVD".data
      "Borrowed, expected back 08/11/2025".data ⟨2025, 10, 1⟩ = (false, []) := by
  rfl

/-- Claim C2 (amended): `BorrowedBlacklist.add`, given an availability
text carrying the code's lexical marker, e.g.
"Entliehen, voraussichtlich bis 08/11/2025", returns true and (on a fresh
key) stores an entry whose return date is 2025-11-08 (day/month/year
reading); given availability text with no parseable return date
("Borrowed, no date") it returns false and the store is left exactly
unchanged. -/
theorem c2_borrowed_add_spec (store : List (List Char × BorrowedEntry))
    (title author media_type : List Char) (today : PyDate)
    (hfresh : dictGet store (borrowedKey title author) = none) :
    (borrowed_add store title author media_type
        "Entliehen, voraussichtlich bis 08/11/2025".data today).1 = true ∧
    dictGet (borrowed_add store title author media_type
        "Entliehen, voraussichtlich bis 08/11/2025".data today).2
        (borrowedKey title author) =
      some ⟨title, author, media_type, ⟨2025, 11, 8⟩, today,
        ("Entliehen, voraussichtlich bis 08/11/2025".data).take 300⟩ ∧
    (∀ (store2 : List (List Char × BorrowedEntry)) (t2 a2 m2 : List Char) (td2 : PyDate),
      borrowed_add store2 t2 a2 m2 "Borrowed, no date".data td2 = (false, store2)) := by
  have hdate : extract_return_date "Entliehen, voraussichtlich bis 08/11/2025".data =
      some ⟨2025, 11, 8⟩ := by rfl
  have hnone : extract_return_date "Borrowed, no date".data = none := by rfl
  refine ⟨?_, ?_, ?_⟩
  · simp [borrowed_add, hdate]
  · simp only [borrowed_add, hdate, hfresh]
    exact dictGet_dictSet_self _ _ _
  · intro store2 t2 a2 m2 td2
    simp [borrowed_add, hnone]

/-- Witness for `c2_borrowed_add_spec` at the empty store. -/
theorem c2_borrowed_add_spec_witness :
    (borrowed_add [] "x".data "y".data "DVD".data
        "Entliehen, voraussichtlich bis 08/11/2025".data ⟨2025, 10, 1⟩).1 = true ∧
    dictGet (borrowed_add [] "x".data "y".data "DVD".data
        "Entliehen, voraussichtlich bis 08/11/2025".data ⟨2025, 10, 1⟩).2
        (borrowedKey "x".data "y".data) =
      some ⟨"x".data, "y".data, "DVD".data, ⟨2025, 11, 8⟩, ⟨2025, 10, 1⟩,
        ("Entliehen, voraussichtlich bis 08/11/2025".data).take 300⟩ :=
  ⟨(c2_borrowed_add_spec [] "x".data "y".data "DVD".data ⟨2025, 10, 1⟩ rfl).1,
    (c2_borrowed_add_spec [] "x".data "y".data "DVD".data ⟨2025, 10, 1⟩ rfl).2.1⟩

/-! ## Claim C3 (ArtistBlacklist recheck window) -/

/-- Claim C3: `ArtistBlacklist.is_blacklisted(key)` is true iff an entry
for the normalized key exists and `now - last_checked < 365` days; the
entry remains stored after the window passes (the iff, with the lookup
hypothesis, holds at any `now`); a key with no entry is never
blacklisted; `add_to_blacklist` on an existing key refreshes
`last_checked` and increments `check_count` instead of erroring; and
immediately after any add the key reports blacklisted. -/
theorem c3_artist_recheck_window (store : List (List Char × ArtistEntry))
    (name : List Char) (now : Int) (song_count : Nat) (reason : List Char)
    (e : ArtistEntry) (h : dictGet store (artistKey name) = some e) :
    (artist_is_blacklisted store name now = true ↔ now - e.last_checked < 365) ∧
    dictGet (artist_add_to_blacklist store name song_count reason now) (artistKey name) =
      some { e with last_checked := now, check_count := e.check_count + 1 } ∧
    (∀ (store2 : List (List Char × ArtistEntry)) (nm2 : List Char) (t2 : Int),
      dictGet store2 (artistKey nm2) = none → artist_is_blacklisted store2 nm2 t2 = false) ∧
    (∀ (store2 : List (List Char × ArtistEntry)) (nm2 : List Char) (sc2 : Nat)
        (r2 : List Char) (t2 : Int),
      artist_is_blacklisted (artist_add_to_blacklist store2 nm2 sc2 r2 t2) nm2 t2 = true) := by
  refine ⟨?_, ?_, ?_, ?_⟩
  · unfold artist_is_blacklisted
    rw [h]
    dsimp only
    by_cases hd : (365 : Int) ≤ now - e.last_checked
    · rw [if_pos hd]
      simp only [Bool.false_eq_true, false_iff, not_lt]
      exact hd
    · rw [if_neg hd]
      simp only [eq_self_iff_true, true_iff]
      omega
  · simp only [artist_add_to_blacklist, h]
    exact dictGet_dictSet_self _ _ _
  · intro store2 nm2 t2 h2
    unfold artist_is_blacklisted
    rw [h2]
  · intro store2 nm2 sc2 r2 t2
    cases h2 : dictGet store2 (artistKey nm2) with
    | some e2 =>
      simp only [artist_is_blacklisted, artist_add_to_blacklist, h2, dictGet_dictSet_self]
      have hz : ¬ (365 : Int) ≤ t2 - t2 := by omega
      rw [if_neg hz]
    | none =>
      simp only [artist_is_blacklisted, artist_add_to_blacklist, h2, dictGet_dictSet_self]
      have hz : ¬ (365 : Int) ≤ t2 - t2 := by omega
      rw [if_neg hz]

/-- Witness for `c3_artist_recheck_window`: a store holding "X" last
checked at day 0, queried at day 400 (past the 365-day window). -/
theorem c3_artist_recheck_window_witness :
    (artist_is_blacklisted [("x".data, ⟨"X".data, 10, "r".data, 0, 0, 1⟩)] "X".data 400 = true ↔
      (400 : Int) - 0 < 365) ∧
    dictGet (artist_add_to_blacklist [("x".data, ⟨"X".data, 10, "r".data, 0, 0, 1⟩)]
        "X".data 10 "r".data 400) (artistKey "X".data) =
      some ⟨"X".data, 10, "r".data, 0, 400, 2⟩ :=
  ⟨(c3_artist_recheck_window [("x".data, ⟨"X".data, 10, "r".data, 0, 0, 1⟩)]
      "X".data 400 10 "r".data ⟨"X".data, 10, "r".data, 0, 0, 1⟩ rfl).1,
    (c3_artist_recheck_window [("x".data, ⟨"X".data, 10, "r".data, 0, 0, 1⟩)]
      "X".data 400 10 "r".data ⟨"X".data, 10, "r".data, 0, 0, 1⟩ rfl).2.1⟩

/-! ## Claim C9 (NotFound blacklist membership) -/

/-- Claim C9: `Blacklist.is_blacklisted` compares lowercased, stripped
fields: an item is blacklisted iff some stored entry in its category has
the same normalized title and either the query item's author is empty, or
the stored entry's author is empty, or the two normalized authors are
equal. -/
theorem c9_nf_blacklist_semantics (b : Blacklists) (category : List Char)
    (l : List NFEntry) (h : blacklistsGet b category = some l) (item : Item) :
    nf_is_blacklisted b category item = true ↔
      ∃ e ∈ l, pyStrip (pyLower e.title) = pyStrip (pyLower item.title) ∧
        (pyStrip (pyLower item.author) = [] ∨ pyStrip (pyLower e.author) = [] ∨
          pyStrip (pyLower e.author) = pyStrip (pyLower item.author)) := by
  unfold nf_is_blacklisted
  rw [h]
  simp [List.any_eq_true, nfMatches, or_assoc]

/-- Witness for `c9_nf_blacklist_semantics`: an entry with an empty
author blocks a query item that does specify an author, on equal
normalized titles. -/
theorem c9_nf_blacklist_semantics_witness :
    nf_is_blacklisted ⟨[⟨"Dune ".data, "".data, "Buch".data, "r".data, ⟨2025, 1, 1⟩⟩], [], []⟩
        "films".data ⟨"dune".data, "Frank Herbert".data, "Buch".data, "S".data⟩ = true ↔
      ∃ e ∈ [(⟨"Dune ".data, "".data, "Buch".data, "r".data, ⟨2025, 1, 1⟩⟩ : NFEntry)],
        pyStrip (pyLower e.title) = pyStrip (pyLower "dune".data) ∧
        (pyStrip (pyLower "Frank Herbert".data) = [] ∨ pyStrip (pyLower e.author) = [] ∨
          pyStrip (pyLower e.author) = pyStrip (pyLower "Frank Herbert".data)) :=
  c9_nf_blacklist_semantics ⟨[⟨"Dune ".data, "".data, "Buch".data, "r".data, ⟨2025, 1, 1⟩⟩], [], []⟩
    "films".data [⟨"Dune ".data, "".data, "Buch".data, "r".data, ⟨2025, 1, 1⟩⟩] rfl
    ⟨"dune".data, "Frank Herbert".data, "Buch".data, "S".data⟩

/-! ## Token lemmas -/

theorem getLastD_mem {α : Type} : ∀ (l : List α) (d : α), l ≠ [] → l.getLastD d ∈ l
  | [], _, h => absurd rfl h
  | [a], d, _ => by simp
  | a :: b :: t, d, _ => by
    have ih := getLastD_mem (b :: t) a (by simp)
    simpa using Or.inr ih

theorem headD_mem {α : Type} : ∀ (l : List α) (d : α), l ≠ [] → l.headD d ∈ l
  | [], _, h => absurd rfl h
  | a :: t, d, _ => by simp

theorem pySplitAux_tok_ne_nil :
    ∀ (s acc : List Char), ∀ t ∈ pySplitAux s acc, t ≠ []
  | [], acc, t, ht => by
    by_cases hacc : acc = []
    · subst hacc
      simp [pySplitAux] at ht
    · simp only [pySplitAux, if_neg hacc, List.mem_singleton] at ht
      subst ht
      simpa using hacc
  | c :: rest, acc, t, ht => by
    simp only [pySplitAux] at ht
    by_cases hc : isPySpace c
    · rw [if_pos hc] at ht
      by_cases hacc : acc = []
      · rw [if_pos hacc] at ht
        exact pySplitAux_tok_ne_nil rest [] t ht
      · rw [if_neg hacc] at ht
        rcases List.mem_cons.mp ht with h1 | h1
        · subst h1
          simpa using hacc
        · exact pySplitAux_tok_ne_nil rest [] t h1
    · rw [if_neg hc] at ht
      exact pySplitAux_tok_ne_nil rest (c :: acc) t ht

/-- Every token produced by Python `str.split()` is nonempty. -/
theorem pySplitWs_tok_ne_nil (s : List Char) : ∀ t ∈ pySplitWs s, t ≠ [] :=
  pySplitAux_tok_ne_nil s []

theorem lastTok_ne_nil (n : List Char) (h : pySplitWs n ≠ []) : lastTok n ≠ [] :=
  pySplitWs_tok_ne_nil n _ (getLastD_mem _ _ h)

theorem firstTok_ne_nil (n : List Char) (h : pySplitWs n ≠ []) : firstTok n ≠ [] :=
  pySplitWs_tok_ne_nil n _ (headD_mem _ _ h)

/-! ## Claim C6 (similarity of equal canonical names) -/

/-- Helper: equal nonempty arguments score exactly 1. -/
theorem similarity_eq_one_of_eq (ratio : List Char → List Char → ℚ)
    (n1 n2 : List Char) (h1 : n1 ≠ []) (h2 : n1 = n2) :
    calculate_name_similarity ratio n1 n2 = 1 := by
  have hA : ¬(n1 = [] ∨ n2 = []) := by
    subst h2
    simp [h1]
  unfold calculate_name_similarity
  rw [if_neg hA, if_pos h2]

/-- Part of claim C6 fails on the code: for the input x = "" the
canonical names are equal (both empty), but `calculate_name_similarity`
returns 0.0, not 1.0, because the emptiness guard precedes the equality
test. -/
theorem c6_counterexample :
    calculate_name_similarity (fun _ _ => 0) (normalize_name "".data) (normalize_name "".data) = 0 ∧
    (0 : ℚ) ≠ 1 := by
  constructor
  · rfl
  · norm_num

/-- Claim C6 (amended): the similarity function returns exactly 1.0
whenever its two arguments are equal nonempty canonical names (for equal
empty arguments it returns 0.0); in particular, for every input x whose
normal form is nonempty, similarity(normalize(x), normalize(x)) = 1.0. -/
theorem c6_similarity_equal_names (ratio : List Char → List Char → ℚ)
    (name1 name2 : List Char) (h1 : name1 ≠ []) (h2 : name1 = name2) :
    calculate_name_similarity ratio name1 name2 = 1 ∧
    (∀ (ratio2 : List Char → List Char → ℚ) (x : List Char), normalize_name x ≠ [] →
      calculate_name_similarity ratio2 (normalize_name x) (normalize_name x) = 1) :=
  ⟨similarity_eq_one_of_eq ratio name1 name2 h1 h2,
    fun ratio2 x hx =>
      similarity_eq_one_of_eq ratio2 (normalize_name x) (normalize_name x) hx rfl⟩

/-- Witness for `c6_similarity_equal_names` at the pair ("ab", "ab"). -/
theorem c6_similarity_equal_names_witness :
    calculate_name_similarity (fun _ _ => 0) "ab".data "ab".data = 1 :=
  (c6_similarity_equal_names (fun _ _ => 0) "ab".data "ab".data (by decide) rfl).1

/-! ## Claim C7 (abbreviation confidence cap) -/

/-- Part of claim C7 fails on the code: for name1 = name2 = "k. king" the
claim's conditions hold (the second name's first token "k." ends with a
period and the last tokens agree), yet the exact-equality early return
yields 1.0, which exceeds the claimed 0.6 cap. -/
theorem c7_counterexample :
    endsWithDot (firstTok "k. king".data) = true ∧
    lastTok "k. king".data = lastTok "k. king".data ∧
    calculate_name_similarity (fun _ _ => 0) "k. king".data "k. king".data = 1 ∧
    ¬ ((1 : ℚ) ≤ 0.6) := by
  refine ⟨rfl, rfl, rfl, by norm_num⟩

/-- Claim C7 (amended): whenever the two names are distinct and nonempty,
both tokenize into at least one token, the second name has more than one
distinct token, its first token ends with a period, and its last token
equals the first name's last token, `calculate_name_similarity` returns
exactly 0.6, regardless of the other score components.  (Exactly equal
names instead return 1.0 via the early equality branch, and a second name
whose tokens are all identical escapes the cap.) -/
theorem c7_abbreviation_cap (ratio : List Char → List Char → ℚ) (name1 name2 : List Char)
    (hne : name1 ≠ name2) (h1 : name1 ≠ []) (h2 : name2 ≠ [])
    (hw1 : pySplitWs name1 ≠ []) (hw2 : pySplitWs name2 ≠ [])
    (hset : 1 < (pySplitWs name2).dedup.length)
    (hdot : endsWithDot (firstTok name2) = true)
    (hlast : lastTok name1 = lastTok name2) :
    calculate_name_similarity ratio name1 name2 = 0.6 := by
  have hA : ¬(name1 = [] ∨ name2 = []) := by simp [h1, h2]
  have hB : ¬((pySplitWs name1).dedup = [] ∨ (pySplitWs name2).dedup = []) := by
    simp [List.dedup_eq_nil, hw1, hw2]
  have hap : abbrevPart name2 = firstTok name2 := by
    unfold abbrevPart
    rw [if_pos hset]
  have habb : abbreviation_score name1 name2 = 0.6 := by
    unfold abbreviation_score
    have hlen : 1 ≤ (pySplitWs name2).length := by
      cases hq : pySplitWs name2 with
      | nil => exact absurd hq hw2
      | cons a as => simp
    rw [if_pos hlen, if_pos ⟨by rw [hap]; exact firstTok_ne_nil name2 hw2, by rw [hap]; exact hdot⟩,
      if_pos ⟨lastTok_ne_nil name1 hw1, hlast⟩]
  have hpos : 0 < abbreviation_score name1 name2 := by
    rw [habb]
    norm_num
  unfold calculate_name_similarity
  rw [if_neg hA, if_neg hne, if_neg hB, if_pos hpos, habb]

/-- Witness for `c7_abbreviation_cap` at ("stephen king", "s. king"). -/
theorem c7_abbreviation_cap_witness :
    calculate_name_similarity (fun _ _ => 0) "stephen king".data "s. king".data = 0.6 :=
  c7_abbreviation_cap (fun _ _ => 0) "stephen king".data "s. king".data
    (by decide) (by decide) (by decide) (by decide) (by decide) (by decide) (by decide) (by decide)

/-! ## Whitespace-structure lemmas for normalize_name -/

theorem toNat_ofNat_valid (n : Nat) (h : n.isValidChar) : (Char.ofNat n).toNat = n := by
  unfold Char.ofNat
  rw [dif_pos h]
  rfl

theorem toLower_idem (c : Char) : c.toLower.toLower = c.toLower := by
  unfold Char.toLower
  by_cases h : c.toNat ≥ 65 ∧ c.toNat ≤ 90
  · rw [if_pos h]
    have hv : (Char.ofNat (c.toNat + 32)).toNat = c.toNat + 32 := by
      apply toNat_ofNat_valid
      left
      omega
    rw [if_neg]
    rw [hv]
    omega
  · rw [if_neg h, if_neg h]

theorem space_not_word (c : Char) (h : isPySpace c = true) : isPyWord c = false := by
  simp only [isPySpace, Bool.or_eq_true, decide_eq_true_eq] at h
  rcases h with ((((h | h) | h) | h) | h) | h <;> subst h <;> decide

theorem collapseWs_cons_nonws (d : Char) (rest : List Char) (hd : isPySpace d = false) :
    collapseWs (d :: rest) = d :: collapseWs rest := by
  cases rest with
  | nil => simp [collapseWs, hd]
  | cons e t => simp [collapseWs, hd]

theorem noTwoWs_collapseWs : ∀ l : List Char, noTwoWs (collapseWs l) = true
  | [] => rfl
  | [c] => by
    by_cases hc : isPySpace c <;> simp [collapseWs, hc, noTwoWs]
  | c :: d :: rest => by
    have ih := noTwoWs_collapseWs (d :: rest)
    by_cases hc : isPySpace c
    · by_cases hd : isPySpace d
      · rw [show collapseWs (c :: d :: rest) = collapseWs (d :: rest) by
          simp [collapseWs, hc, hd]]
        exact ih
      · have hd2 : isPySpace d = false := by simpa using hd
        have h2 : collapseWs (c :: d :: rest) = ' ' :: collapseWs (d :: rest) := by
          simp [collapseWs, hc, hd2]
        rw [h2, collapseWs_cons_nonws d rest hd2]
        rw [collapseWs_cons_nonws d rest hd2] at ih
        simp [noTwoWs, hd2, ih]
    · have hc2 : isPySpace c = false := by simpa using hc
      rw [collapseWs_cons_nonws c (d :: rest) hc2]
      cases hX : collapseWs (d :: rest) with
      | nil => rfl
      | cons x xs =>
        rw [hX] at ih
        simp [noTwoWs, hc2, ih]

theorem mem_collapseWs : ∀ (l : List Char) (c : Char), c ∈ collapseWs l →
    c = ' ' ∨ (c ∈ l ∧ isPySpace c = false)
  | [], c, h => by simp [collapseWs] at h
  | [d], c, h => by
    by_cases hd : isPySpace d
    · left
      simpa [collapseWs, hd] using h
    · right
      have hd2 : isPySpace d = false := by simpa using hd
      simp [collapseWs, hd2] at h
      subst h
      exact ⟨by simp, hd2⟩
  | d :: e :: t, c, h => by
    by_cases hd : isPySpace d
    · by_cases he : isPySpace e
      · rw [show collapseWs (d :: e :: t) = collapseWs (e :: t) by
          simp [collapseWs, hd, he]] at h
        rcases mem_collapseWs (e :: t) c h with h1 | ⟨h1, h2⟩
        · left; exact h1
        · right; exact ⟨List.mem_cons_of_mem _ h1, h2⟩
      · have he2 : isPySpace e = false := by simpa using he
        rw [show collapseWs (d :: e :: t) = ' ' :: collapseWs (e :: t) by
          simp [collapseWs, hd, he2]] at h
        rcases List.mem_cons.mp h with h1 | h1
        · left; exact h1
        · rcases mem_collapseWs (e :: t) c h1 with h2 | ⟨h2, h3⟩
          · left; exact h2
          · right; exact ⟨List.mem_cons_of_mem _ h2, h3⟩
    · have hd2 : isPySpace d = false := by simpa using hd
      rw [collapseWs_cons_nonws d (e :: t) hd2] at h
      rcases List.mem_cons.mp h with h1 | h1
      · right
        subst h1
        exact ⟨by simp, hd2⟩
      · rcases mem_collapseWs (e :: t) c h1 with h2 | ⟨h2, h3⟩
        · left; exact h2
        · right; exact ⟨List.mem_cons_of_mem _ h2, h3⟩

theorem collapseWs_fix : ∀ l : List Char, noTwoWs l = true →
    (∀ c ∈ l, isPySpace c = true → c = ' ') → collapseWs l = l
  | [], _, _ => rfl
  | [c], _, hsp => by
    by_cases hc : isPySpace c
    · have : c = ' ' := hsp c (by simp) hc
      subst this
      rfl
    · have hc2 : isPySpace c = false := by simpa using hc
      simp [collapseWs, hc2]
  | c :: d :: t, hnt, hsp => by
    have hnt2 : noTwoWs (d :: t) = true := by
      simp only [noTwoWs, Bool.and_eq_true] at hnt
      exact hnt.2
    have hsp2 : ∀ x ∈ d :: t, isPySpace x = true → x = ' ' := fun x hx =>
      hsp x (List.mem_cons_of_mem _ hx)
    have ih := collapseWs_fix (d :: t) hnt2 hsp2
    by_cases hc : isPySpace c
    · have hd : isPySpace d = false := by
        simp only [noTwoWs, Bool.and_eq_true, Bool.not_eq_true', Bool.and_eq_false_iff] at hnt
        rcases hnt.1 with h1 | h1
        · rw [hc] at h1; cases h1
        · exact h1
      have hcsp : c = ' ' := hsp c (by simp) hc
      rw [show collapseWs (c :: d :: t) = ' ' :: collapseWs (d :: t) by
        simp [collapseWs, hc, hd], ih, hcsp]
    · have hc2 : isPySpace c = false := by simpa using hc
      rw [collapseWs_cons_nonws c (d :: t) hc2, ih]

theorem noTwoWs_tail (c : Char) (l : List Char) (h : noTwoWs (c :: l) = true) :
    noTwoWs l = true := by
  cases l with
  | nil => rfl
  | cons d t =>
    simp only [noTwoWs, Bool.and_eq_true] at h
    exact h.2

theorem noTwoWs_dropWhile (p : Char → Bool) :
    ∀ l : List Char, noTwoWs l = true → noTwoWs (l.dropWhile p) = true
  | [], h => h
  | c :: t, h => by
    by_cases hp : p c
    · rw [List.dropWhile_cons_of_pos hp]
      exact noTwoWs_dropWhile p t (noTwoWs_tail c t h)
    · rw [List.dropWhile_cons_of_neg hp]
      exact h

theorem pyDropEnd_cons_head (d : Char) (t : List Char) :
    pyDropEnd (d :: t) = [] ∨ ∃ r, pyDropEnd (d :: t) = d :: r := by
  unfold pyDropEnd
  cases h : pyDropEnd t with
  | nil =>
    by_cases hd : isPySpace d
    · left; simp [hd]
    · right; exact ⟨[], by simp [hd]⟩
  | cons r rs => right; exact ⟨r :: rs, rfl⟩

theorem mem_pyDropEnd : ∀ (l : List Char) (c : Char), c ∈ pyDropEnd l → c ∈ l
  | [], c, h => by simp [pyDropEnd] at h
  | d :: t, c, h => by
    unfold pyDropEnd at h
    cases h2 : pyDropEnd t with
    | nil =>
      rw [h2] at h
      by_cases hd : isPySpace d
      · simp [hd] at h
      · simp [hd] at h
        simp [h]
    | cons r rs =>
      rw [h2] at h
      rcases List.mem_cons.mp h with h3 | h3
      · simp [h3]
      · exact List.mem_cons_of_mem _ (mem_pyDropEnd t c (h2 ▸ h3))

theorem noTwoWs_pyDropEnd : ∀ l : List Char, noTwoWs l = true → noTwoWs (pyDropEnd l) = true
  | [], h => h
  | c :: t, h => by
    have ih := noTwoWs_pyDropEnd t (noTwoWs_tail c t h)
    unfold pyDropEnd
    cases h2 : pyDropEnd t with
    | nil =>
      by_cases hc : isPySpace c <;> simp [hc, noTwoWs]
    | cons r rs =>
      cases t with
      | nil => simp [pyDropEnd] at h2
      | cons d t2 =>
        rcases pyDropEnd_cons_head d t2 with h3 | ⟨r2, h3⟩
        · rw [h2] at h3; cases h3
        · rw [h2] at h3
          injection h3 with h4 h5
          subst h4
          rw [h2] at ih
          simp only [noTwoWs, Bool.and_eq_true] at h ⊢
          exact ⟨h.1, ih⟩

theorem mem_pyStrip (l : List Char) (c : Char) (h : c ∈ pyStrip l) : c ∈ l :=
  (List.dropWhile_sublist isPySpace).subset (mem_pyDropEnd _ c h)

theorem noTwoWs_pyStrip (l : List Char) (h : noTwoWs l = true) : noTwoWs (pyStrip l) = true :=
  noTwoWs_pyDropEnd _ (noTwoWs_dropWhile isPySpace l h)

theorem subPunct_keep (c : Char) (h : isPyWord c = true ∨ c = ' ') :
    (if isPyWord c || isPySpace c then c else ' ') = c := by
  rcases h with h | h
  · rw [if_pos]
    simp [h]
  · subst h
    decide

theorem subPunct_id : ∀ l : List Char, (∀ c ∈ l, isPyWord c = true ∨ c = ' ') → subPunct l = l
  | [], _ => rfl
  | c :: t, h => by
    have ih := subPunct_id t fun x hx => h x (List.mem_cons_of_mem _ hx)
    unfold subPunct at ih ⊢
    simp only [List.map_cons]
    rw [subPunct_keep c (h c (by simp)), ih]

theorem map_id_of_fixed {f : Char → Char} : ∀ l : List Char, (∀ c ∈ l, f c = c) → l.map f = l
  | [], _ => rfl
  | c :: t, h => by
    have ih := map_id_of_fixed t fun x hx => h x (List.mem_cons_of_mem _ hx)
    simp only [List.map_cons, ih, h c (by simp)]

theorem chars_pipeline (w : List Char) :
    ∀ c ∈ collapseWs (subPunct w), isPyWord c = true ∨ c = ' ' := by
  intro c hc
  rcases mem_collapseWs _ c hc with h | ⟨h1, h2⟩
  · right; exact h
  · unfold subPunct at h1
    rcases List.mem_map.mp h1 with ⟨a, _, hfa⟩
    by_cases hw : isPyWord a || isPySpace a
    · rw [if_pos hw] at hfa
      subst hfa
      rcases (Bool.or_eq_true _ _).mp hw with h3 | h3
      · left; exact h3
      · rw [h2] at h3
        cases h3
    · rw [if_neg hw] at hfa
      right
      exact hfa.symm

theorem chars_pipeline_lower (u : List Char) :
    ∀ c ∈ collapseWs (subPunct (pyStrip (pyLower u))), Char.toLower c = c := by
  intro c hc
  rcases mem_collapseWs _ c hc with h | ⟨h1, _⟩
  · subst h
    decide
  · unfold subPunct at h1
    rcases List.mem_map.mp h1 with ⟨a, ha, hfa⟩
    have hal : Char.toLower a = a := by
      have ha2 : a ∈ pyLower u := mem_pyStrip _ a ha
      rcases List.mem_map.mp ha2 with ⟨b, _, hb⟩
      rw [← hb]
      exact toLower_idem b
    by_cases hw : isPyWord a || isPySpace a
    · rw [if_pos hw] at hfa
      subst hfa
      exact hal
    · rw [if_neg hw] at hfa
      subst hfa
      decide

theorem normalize_name_pipeline (name : List Char) (h : name ≠ []) :
    normalize_name name =
      collapseWs (subPunct (pyStrip (pyLower
        (if name.contains ',' then
          pyStrip (splitFirstComma name).2 ++ ' ' :: pyStrip (splitFirstComma name).1
        else name)))) := by
  unfold normalize_name
  rw [if_neg h]

theorem normalize_chars (name : List Char) :
    ∀ c ∈ normalize_name name, isPyWord c = true ∨ c = ' ' := by
  by_cases h : name = []
  · subst h
    intro c hc
    simp [normalize_name] at hc
  · rw [normalize_name_pipeline name h]
    exact chars_pipeline _

theorem normalize_lower (name : List Char) :
    ∀ c ∈ normalize_name name, Char.toLower c = c := by
  by_cases h : name = []
  · subst h
    intro c hc
    simp [normalize_name] at hc
  · rw [normalize_name_pipeline name h]
    exact chars_pipeline_lower _

theorem normalize_noTwoWs (name : List Char) : noTwoWs (normalize_name name) = true := by
  by_cases h : name = []
  · subst h
    rfl
  · rw [normalize_name_pipeline name h]
    exact noTwoWs_collapseWs _

theorem normalize_no_comma (name : List Char) :
    ¬ ((normalize_name name).contains ',' = true) := by
  intro hc
  have hmem : ',' ∈ normalize_name name := by
    simpa using hc
  rcases normalize_chars name ',' hmem with h | h
  · exact absurd h (by decide)
  · exact absurd h (by decide)

/-! ## Claim C5 (normalize_name idempotence) -/

/-- Claim C5 fails on the code: `normalize_name` applies `strip` before
replacing punctuation by spaces, so a trailing (or leading) punctuation
character leaves a trailing (leading) space that a second application
removes: normalize("a!") = "a " but normalize(normalize("a!")) = "a". -/
theorem c5_counterexample :
    normalize_name "a!".data = "a ".data ∧
    normalize_name (normalize_name "a!".data) = "a".data ∧
    normalize_name (normalize_name "a!".data) ≠ normalize_name "a!".data := by
  refine ⟨rfl, rfl, by decide⟩

/-- Claim C5 (amended): a second application of `normalize_name` exactly
strips the result of the first, `normalize(normalize(x)) =
strip(normalize(x))`; hence `normalize_name` is idempotent precisely on
those inputs whose normal form carries no leading or trailing space (it
is not idempotent in general, e.g. on "a!"). -/
theorem c5_normalize_idempotent_up_to_strip (name : List Char) :
    normalize_name (normalize_name name) = pyStrip (normalize_name name) ∧
    (pyStrip (normalize_name name) = normalize_name name →
      normalize_name (normalize_name name) = normalize_name name) := by
  have main : normalize_name (normalize_name name) = pyStrip (normalize_name name) := by
    by_cases hnil : normalize_name name = []
    · rw [hnil]
      rfl
    · rw [normalize_name_pipeline _ hnil, if_neg (normalize_no_comma name)]
      rw [show pyLower (normalize_name name) = normalize_name name from
        map_id_of_fixed _ (normalize_lower name)]
      rw [subPunct_id _ fun c hc => normalize_chars name c (mem_pyStrip _ c hc)]
      apply collapseWs_fix
      · exact noTwoWs_pyStrip _ (normalize_noTwoWs name)
      · intro c hc hs
        rcases normalize_chars name c (mem_pyStrip _ c hc) with h | h
        · rw [space_not_word c hs] at h
          cases h
        · exact h
  exact ⟨main, fun hstrip => by rw [main, hstrip]⟩

/-- Witness for `c5_normalize_idempotent_up_to_strip`: the comma-reordered
name "Coppola, Francis Ford" normalizes to the already-stripped
"francis ford coppola", on which normalization is idempotent. -/
theorem c5_normalize_idempotent_up_to_strip_witness :
    normalize_name (normalize_name "Coppola, Francis Ford".data) =
      normalize_name "Coppola, Francis Ford".data :=
  (c5_normalize_idempotent_up_to_strip "Coppola, Francis Ford".data).2 (by decide)

/-! ## Stable-sort lemmas -/

theorem mem_insertDesc {α : Type} (key : α → ℚ) (x : α) :
    ∀ (l : List α) (z : α), z ∈ insertDesc key x l → z = x ∨ z ∈ l
  | [], z, h => by
    left
    simpa [insertDesc] using h
  | y :: ys, z, h => by
    unfold insertDesc at h
    by_cases hk : key x < key y
    · rw [if_pos hk] at h
      rcases List.mem_cons.mp h with h1 | h1
      · right
        simp [h1]
      · rcases mem_insertDesc key x ys z h1 with h2 | h2
        · left; exact h2
        · right; exact List.mem_cons_of_mem _ h2
    · rw [if_neg hk] at h
      rcases List.mem_cons.mp h with h1 | h1
      · left; exact h1
      · right; exact h1

theorem perm_insertDesc {α : Type} (key : α → ℚ) (x : α) :
    ∀ l : List α, (insertDesc key x l).Perm (x :: l)
  | [] => List.Perm.refl _
  | y :: ys => by
    unfold insertDesc
    by_cases hk : key x < key y
    · rw [if_pos hk]
      exact ((perm_insertDesc key x ys).cons y).trans (List.Perm.swap x y ys)
    · rw [if_neg hk]

theorem perm_sortDesc {α : Type} (key : α → ℚ) : ∀ l : List α, (sortDesc key l).Perm l
  | [] => List.Perm.refl _
  | x :: xs =>
    (perm_insertDesc key x (sortDesc key xs)).trans ((perm_sortDesc key xs).cons x)

theorem pairwise_insertDesc {α : Type} (key : α → ℚ) (x : α) :
    ∀ l : List α, l.Pairwise (fun a b => key b ≤ key a) →
      (insertDesc key x l).Pairwise (fun a b => key b ≤ key a)
  | [], _ => by simp [insertDesc]
  | y :: ys, h => by
    rcases List.pairwise_cons.mp h with ⟨hy, hys⟩
    unfold insertDesc
    by_cases hk : key x < key y
    · rw [if_pos hk]
      refine List.pairwise_cons.mpr ⟨?_, pairwise_insertDesc key x ys hys⟩
      intro z hz
      rcases mem_insertDesc key x ys z hz with h1 | h1
      · subst h1
        exact le_of_lt hk
      · exact hy z h1
    · rw [if_neg hk]
      refine List.pairwise_cons.mpr ⟨?_, h⟩
      intro z hz
      rcases List.mem_cons.mp hz with h1 | h1
      · subst h1
        exact le_of_not_lt hk
      · exact le_trans (hy z h1) (le_of_not_lt hk)

theorem pairwise_sortDesc {α : Type} (key : α → ℚ) :
    ∀ l : List α, (sortDesc key l).Pairwise (fun a b => key b ≤ key a)
  | [] => List.Pairwise.nil
  | x :: xs => pairwise_insertDesc key x _ (pairwise_sortDesc key xs)

theorem filter_insertDesc {α : Type} (key : α → ℚ) (p : α → Bool) (k : ℚ)
    (hp : ∀ a, p a = true → key a = k) (x : α) :
    ∀ l : List α,
      (insertDesc key x l).filter p = if p x then x :: l.filter p else l.filter p
  | [] => by
    by_cases hx : p x <;> simp [insertDesc, hx]
  | y :: ys => by
    have ih := filter_insertDesc key p k hp x ys
    unfold insertDesc
    by_cases hk : key x < key y
    · rw [if_pos hk]
      by_cases hpy : p y
      · have hx : ¬ (p x = true) := by
          intro hx2
          rw [hp x hx2, hp y hpy] at hk
          exact lt_irrefl k hk
        simp only [List.filter_cons, hpy, if_true, ih, hx, if_false]
        simp [hpy]
      · have hpy2 : p y = false := by simpa using hpy
        simp only [List.filter_cons, hpy2, Bool.false_eq_true, if_false, ih]
    · rw [if_neg hk]
      by_cases hx : p x
      · simp [List.filter_cons, hx]
      · have hx2 : p x = false := by simpa using hx
        simp [List.filter_cons, hx2]

theorem filter_sortDesc {α : Type} (key : α → ℚ) (p : α → Bool) (k : ℚ)
    (hp : ∀ a, p a = true → key a = k) :
    ∀ l : List α, (sortDesc key l).filter p = l.filter p
  | [] => rfl
  | x :: xs => by
    have ih := filter_sortDesc key p k hp xs
    unfold sortDesc
    rw [filter_insertDesc key p k hp x _, ih]
    by_cases hx : p x
    · rw [if_pos hx, List.filter_cons_of_pos hx]
    · have hx2 : p x = false := by simpa using hx
      rw [if_neg hx, List.filter_cons_of_neg (by simp [hx2])]

/-! ## Claim C8 (rankByAuthorAndTitle) -/

theorem filterStep_eq (cam : Hit → Bool × ℚ × List Char) (ratio : List Char → List Char → ℚ)
    (expected_title : Option (List Char)) (threshold : ℚ) (r : Hit) :
    filterStep cam ratio expected_title threshold r =
      if acceptedBy cam ratio expected_title threshold r then
        some (annOf cam ratio expected_title r)
      else none := by
  unfold filterStep acceptedBy annOf titleSimOf
  set ts := (if truthyTitle expected_title && !r.title.isEmpty then
      calculate_name_similarity ratio (normalize_name (expected_title.getD []))
        (normalize_name r.title)
    else 0) with hts
  by_cases ht : truthyTitle expected_title
  · simp only [ht, if_true, decide_eq_true_eq]
  · have ht2 : truthyTitle expected_title = false := by simpa using ht
    simp only [ht2, Bool.false_eq_true, if_false]

theorem filterMap_filterStep (cam : Hit → Bool × ℚ × List Char)
    (ratio : List Char → List Char → ℚ) (expected_title : Option (List Char))
    (threshold : ℚ) :
    ∀ results : List Hit,
      results.filterMap (filterStep cam ratio expected_title threshold) =
        (results.filter (acceptedBy cam ratio expected_title threshold)).map
          (annOf cam ratio expected_title)
  | [] => rfl
  | r :: rs => by
    have ih := filterMap_filterStep cam ratio expected_title threshold rs
    rw [List.filterMap_cons, filterStep_eq, List.filter_cons]
    by_cases hr : acceptedBy cam ratio expected_title threshold r
    · rw [if_pos hr, if_pos hr]
      simp [ih]
    · rw [if_neg hr, if_neg hr]
      exact ih

/-- Claim C8: with `expected_author` supplied, `filter_results_by_author`
returns exactly the hits accepted by the spec's rule (with a title:
combined score 0.6*author + 0.4*title at or above the threshold, or a
title score of at least 0.95; without a title: the author match's found
flag), annotated with their scores; the output is a permutation of those
accepted hits, is sorted descending by combined (or author) score, and
within every score class the original relative order is preserved
(stability).  `check_author_match` enters only through the abstract
collaborator `cam`, so this holds for the concrete matcher as well. -/
theorem c8_filter_results_ranking (cam : Hit → Bool × ℚ × List Char)
    (ratio : List Char → List Char → ℚ) (results : List Hit)
    (expected_author : List Char) (expected_title : Option (List Char)) (threshold : ℚ)
    (hauthor : expected_author ≠ []) :
    (filter_results_by_author cam ratio results expected_author expected_title
        threshold).Perm
      ((results.filter (acceptedBy cam ratio expected_title threshold)).map
        (annOf cam ratio expected_title)) ∧
    (filter_results_by_author cam ratio results expected_author expected_title
        threshold).Pairwise (fun a b => combinedKey b ≤ combinedKey a) ∧
    ∀ k : ℚ,
      (filter_results_by_author cam ratio results expected_author expected_title
          threshold).filter (fun a => combinedKey a == k) =
        ((results.filter (acceptedBy cam ratio expected_title threshold)).map
          (annOf cam ratio expected_title)).filter (fun a => combinedKey a == k) := by
  have hopen : filter_results_by_author cam ratio results expected_author expected_title
      threshold = sortDesc combinedKey
        ((results.filter (acceptedBy cam ratio expected_title threshold)).map
          (annOf cam ratio expected_title)) := by
    unfold filter_results_by_author
    rw [if_neg hauthor, filterMap_filterStep]
  refine ⟨?_, ?_, ?_⟩
  · rw [hopen]
    exact perm_sortDesc _ _
  · rw [hopen]
    exact pairwise_sortDesc _ _
  · intro k
    rw [hopen]
    exact filter_sortDesc combinedKey _ k (fun a ha => by simpa using ha) _

/-- Witness for `c8_filter_results_ranking`: two hits, no expected title,
a collaborator accepting both with score 1. -/
theorem c8_filter_results_ranking_witness :
    (filter_results_by_author (fun _ => (true, 1, "person_field".data)) (fun _ _ => 0)
        [⟨"t1".data, "i1".data⟩, ⟨"t2".data, "i2".data⟩] "Jane Doe".data none (7/10)).Perm
      (([⟨"t1".data, "i1".data⟩, (⟨"t2".data, "i2".data⟩ : Hit)].filter
          (acceptedBy (fun _ => (true, 1, "person_field".data)) (fun _ _ => 0) none (7/10))).map
        (annOf (fun _ => (true, 1, "person_field".data)) (fun _ _ => 0) none)) ∧
    (filter_results_by_author (fun _ => (true, 1, "person_field".data)) (fun _ _ => 0)
        [⟨"t1".data, "i1".data⟩, ⟨"t2".data, "i2".data⟩] "Jane Doe".data none (7/10)).Pairwise
      (fun a b => combinedKey b ≤ combinedKey a) :=
  ⟨(c8_filter_results_ranking (fun _ => (true, 1, "person_field".data)) (fun _ _ => 0)
      [⟨"t1".data, "i1".data⟩, ⟨"t2".data, "i2".data⟩] "Jane Doe".data none (7/10)
      (by decide)).1,
    (c8_filter_results_ranking (fun _ => (true, 1, "person_field".data)) (fun _ _ => 0)
      [⟨"t1".data, "i1".data⟩, ⟨"t2".data, "i2".data⟩] "Jane Doe".data none (7/10)
      (by decide)).2.1⟩

/-! ## Recommender support lemmas -/

theorem dictGetD_dictSet_self {β : Type} (d : List (List Char × β)) (k : List Char)
    (v dflt : β) : dictGetD (dictSet d k v) k dflt = v := by
  unfold dictGetD
  rw [dictGet_dictSet_self]

theorem dictGetD_dictSet_ne {β : Type} (d : List (List Char × β)) (k k2 : List Char)
    (v dflt : β) (hne : k ≠ k2) : dictGetD (dictSet d k v) k2 dflt = dictGetD d k2 dflt := by
  unfold dictGetD
  rw [dictGet_dictSet_ne _ _ _ _ hne]

theorem dictGet_mem {β : Type} :
    ∀ (d : List (List Char × β)) (k : List Char) (v : β), dictGet d k = some v → (k, v) ∈ d
  | [], _, _, h => by cases h
  | (k1, v1) :: rest, k, v, h => by
    unfold dictGet at h
    by_cases hk : k1 = k
    · rw [if_pos hk] at h
      injection h with h2
      subst hk
      subst h2
      simp
    · rw [if_neg hk] at h
      exact List.mem_cons_of_mem _ (dictGet_mem rest k v h)

theorem dictAppendItem_ok :
    ∀ (d : List (List Char × List Item)) (k : List Char) (v : Item),
      (∀ p ∈ d, ∀ it ∈ p.2, bucketOf it.source = p.1) → bucketOf v.source = k →
      ∀ p ∈ dictAppendItem d k v, ∀ it ∈ p.2, bucketOf it.source = p.1
  | [], k, v, _, hv, p, hp, it, hit => by
    simp only [dictAppendItem, List.mem_singleton] at hp
    subst hp
    simp only [List.mem_singleton] at hit
    subst hit
    exact hv
  | (k1, vs) :: rest, k, v, hd, hv, p, hp, it, hit => by
    unfold dictAppendItem at hp
    by_cases hk : k1 = k
    · rw [if_pos hk] at hp
      rcases List.mem_cons.mp hp with h1 | h1
      · subst h1
        simp only [List.mem_append, List.mem_singleton] at hit
        rcases hit with h2 | h2
        · exact hd (k1, vs) (by simp) it h2
        · subst h2
          rw [hv, hk]
      · exact hd p (List.mem_cons_of_mem _ h1) it hit
    · rw [if_neg hk] at hp
      rcases List.mem_cons.mp hp with h1 | h1
      · subst h1
        exact hd (k1, vs) (by simp) it hit
      · exact dictAppendItem_ok rest k v (fun q hq => hd q (List.mem_cons_of_mem _ hq)) hv
          p h1 it hit

theorem foldl_group_ok :
    ∀ (items : List Item) (d : List (List Char × List Item)),
      (∀ p ∈ d, ∀ it ∈ p.2, bucketOf it.source = p.1) →
      ∀ p ∈ items.foldl (fun d item => dictAppendItem d (bucketOf item.source) item) d,
        ∀ it ∈ p.2, bucketOf it.source = p.1
  | [], _, hd => hd
  | item :: rest, d, hd => by
    simp only [List.foldl_cons]
    exact foldl_group_ok rest _ (dictAppendItem_ok d _ item hd rfl)

theorem get_items_by_source_ok (items : List Item) :
    ∀ p ∈ get_items_by_source items, ∀ it ∈ p.2, bucketOf it.source = p.1 :=
  foldl_group_ok items [] (by simp)

theorem lookup_group_ok (itemsBySource : List (List Char × List Item))
    (hok : ∀ p ∈ itemsBySource, ∀ it ∈ p.2, bucketOf it.source = p.1) (k : List Char) :
    ∀ it ∈ dictGetD itemsBySource k [], bucketOf it.source = k := by
  intro it hit
  unfold dictGetD at hit
  cases hg : dictGet itemsBySource k with
  | none => rw [hg] at hit; cases hit
  | some l =>
    rw [hg] at hit
    exact hok (k, l) (dictGet_mem _ _ _ hg) it hit

theorem check_availability_app (search : List Char → List Hit) (today : PyDate)
    (category : List Char) (st : SelState) (item : Item) :
    ((check_availability search today category st item).1).app = st.app := by
  unfold check_availability
  dsimp only
  repeat' split
  all_goals rfl

theorem check_availability_snd (search : List Char → List Hit) (today : PyDate)
    (category : List Char) (st : SelState) (item : Item) :
    (check_availability search today category st item).2 = none ∨
      ∃ bib, (check_availability search today category st item).2 = some (item, bib) := by
  unfold check_availability
  dsimp only
  repeat' split
  all_goals first
    | (left; rfl)
    | (right; exact ⟨_, rfl⟩)

theorem check_availability_some (search : List Char → List Hit) (today : PyDate)
    (category : List Char) (st : SelState) (item : Item) (st2 : SelState)
    (acc : Item × List Char)
    (h : check_availability search today category st item = (st2, some acc)) :
    acc.1 = item ∧ st2.app = st.app := by
  have happ := check_availability_app search today category st item
  rw [h] at happ
  refine ⟨?_, happ⟩
  rcases check_availability_snd search today category st item with h2 | ⟨bib, h2⟩
  · rw [h] at h2
    cases h2
  · rw [h] at h2
    injection h2 with h3
    rw [h3]

theorem check_availability_some' (search : List Char → List Hit) (today : PyDate)
    (category : List Char) (st : SelState) (item : Item) (stc : SelState)
    (r : Option (Item × List Char))
    (h : check_availability search today category st item = (stc, r)) :
    stc.app = st.app := by
  have happ := check_availability_app search today category st item
  rw [h] at happ
  exact happ

theorem scanItems_app (search : List Char → List Hit) (today : PyDate)
    (category : List Char) :
    ∀ (l : List Item) (st : SelState),
      ((scanItems search today category st l).1).app = st.app
  | [], _ => rfl
  | item :: rest, st => by
    unfold scanItems
    split
    · exact scanItems_app _ _ _ rest st
    · split
      · exact scanItems_app _ _ _ rest st
      · split
        · rename_i st2 acc heq
          have happ := check_availability_app search today category st item
          rw [heq] at happ
          exact happ
        · rename_i st2 heq
          have happ := check_availability_app search today category st item
          rw [heq] at happ
          rw [scanItems_app _ _ _ rest st2]
          exact happ

theorem scanItems_some (search : List Char → List Hit) (today : PyDate)
    (category : List Char) :
    ∀ (l : List Item) (st st2 : SelState) (acc : Item × List Char),
      scanItems search today category st l = (st2, some acc) →
      acc.1 ∈ l ∧ st2.app = st.app ∧
        is_already_suggested st.app category acc.1 = false
  | [], st, st2, acc, h => by cases h
  | item :: rest, st, st2, acc, h => by
    unfold scanItems at h
    by_cases h1 : is_already_suggested st.app category item
    · rw [if_pos h1] at h
      rcases scanItems_some search today category rest st st2 acc h with ⟨ha, hb, hc⟩
      exact ⟨List.mem_cons_of_mem _ ha, hb, hc⟩
    · rw [if_neg h1] at h
      by_cases h2 : nf_is_blacklisted st.notFound category item
      · rw [if_pos h2] at h
        rcases scanItems_some search today category rest st st2 acc h with ⟨ha, hb, hc⟩
        exact ⟨List.mem_cons_of_mem _ ha, hb, hc⟩
      · rw [if_neg h2] at h
        cases hca : check_availability search today category st item with
        | mk stc r =>
          rw [hca] at h
          cases r with
          | some acc2 =>
            injection h with hst hacc
            injection hacc with hacc2
            subst hst
            subst hacc2
            rcases check_availability_some search today category st item stc acc2 hca
              with ⟨hid, happ⟩
            refine ⟨by rw [hid]; simp, happ, ?_⟩
            rw [hid]
            simpa using h1
          | none =>
            rcases scanItems_some search today category rest stc st2 acc h with ⟨ha, hb, hc⟩
            have happ := check_availability_some' search today category st item stc none hca
            refine ⟨List.mem_cons_of_mem _ ha, by rw [hb, happ], ?_⟩
            rw [show is_already_suggested st.app category acc.1 =
              is_already_suggested stc.app category acc.1 by rw [happ]]
            exact hc

theorem mark_suggested_rejected (st : AppState) (category : List Char) (item : Item) :
    (mark_suggested st category item).rejected = st.rejected := by
  unfold mark_suggested
  dsimp only
  split <;> rfl

theorem is_already_suggested_false_not_matching (st : AppState) (category : List Char)
    (item : Item) (h : is_already_suggested st category item = false) :
    ∀ x ∈ dictGetD st.suggested category [], pyLower x.title ≠ pyLower item.title := by
  intro x hx
  unfold is_already_suggested at h
  rw [Bool.or_eq_false_iff] at h
  have := List.any_eq_false.mp h.1 x hx
  unfold titleMatches at this
  simpa using this

theorem mark_suggested_titles (st : AppState) (category : List Char) (item : Item)
    (h : is_already_suggested st category item = false) :
    dictGetD (mark_suggested st category item).suggested category [] =
      dictGetD st.suggested category [] ++ [item] := by
  unfold mark_suggested
  dsimp only
  have hany : ((dictGetD st.suggested category []).any fun x => titleMatches x item) = false := by
    unfold is_already_suggested at h
    rw [Bool.or_eq_false_iff] at h
    exact h.1
  rw [if_neg (by simp [hany])]
  exact dictGetD_dictSet_self _ _ _ _

theorem pickLoop_inv (search : List Char → List Hit) (today : PyDate) (category : List Char)
    (itemsBySource : List (List Char × List Item)) (n items_per_source : Nat)
    (hgroup : ∀ p ∈ itemsBySource, ∀ it ∈ p.2, bucketOf it.source = p.1) :
    ∀ (fuel : Nat) (sel : List (Item × List Char)) (counts : List (List Char × Nat))
      (sources : List (List Char)) (idx : Nat) (st : SelState),
      SelInv category n items_per_source sel counts st →
      SelInv category n items_per_source
        (pickLoop search today category itemsBySource n items_per_source fuel
          ⟨sel, counts, sources, idx, st⟩).selected
        (pickLoop search today category itemsBySource n items_per_source fuel
          ⟨sel, counts, sources, idx, st⟩).counts
        (pickLoop search today category itemsBySource n items_per_source fuel
          ⟨sel, counts, sources, idx, st⟩).st
  | 0, sel, counts, sources, idx, st, hinv => hinv
  | fuel + 1, sel, counts, [], idx, st, hinv => by
    unfold pickLoop
    dsimp only
    split
    · exact hinv
    · exact hinv
  | fuel + 1, sel, counts, s0 :: ss, idx, st, hinv => by
    unfold pickLoop
    dsimp only
    by_cases hlen : sel.length < n
    · rw [if_pos hlen]
      by_cases hcnt : items_per_source ≤
          dictGetD counts ((s0 :: ss).getD (idx % (s0 :: ss).length) s0) 0
      · rw [if_pos hcnt]
        exact pickLoop_inv search today category itemsBySource n items_per_source hgroup
          fuel sel counts (s0 :: ss) (idx + 1) st hinv
      · rw [if_neg hcnt]
        rcases hinv with ⟨h1, h2, h3, h4, h5⟩
        cases hscan : scanItems search today category st
            (dictGetD itemsBySource ((s0 :: ss).getD (idx % (s0 :: ss).length) s0) []) with
        | mk st2 r =>
          cases r with
          | some acc =>
            dsimp only
            rcases scanItems_some search today category _ st st2 acc hscan with
              ⟨hmem, happ, hsug⟩
            have hbucket : bucketOf acc.1.source =
                (s0 :: ss).getD (idx % (s0 :: ss).length) s0 :=
              lookup_group_ok itemsBySource hgroup _ acc.1 hmem
            have hsug2 : is_already_suggested st2.app category acc.1 = false := by
              rw [happ]
              exact hsug
            have hnotitle := is_already_suggested_false_not_matching st.app category acc.1 hsug
            apply pickLoop_inv search today category itemsBySource n items_per_source hgroup
              fuel
            refine ⟨?_, ?_, ?_, ?_, ?_⟩
            · simp only [List.length_append, List.length_singleton]
              omega
            · intro s
              by_cases hs : (s0 :: ss).getD (idx % (s0 :: ss).length) s0 = s
              · subst hs
                rw [dictGetD_dictSet_self]
                omega
              · rw [dictGetD_dictSet_ne _ _ _ _ _ hs]
                exact h2 s
            · intro s
              rw [List.filter_append]
              by_cases hs : (s0 :: ss).getD (idx % (s0 :: ss).length) s0 = s
              · subst hs
                rw [dictGetD_dictSet_self]
                have hacc : (bucketOf acc.1.source == (s0 :: ss).getD (idx % (s0 :: ss).length) s0) = true := by
                  rw [hbucket]
                  exact beq_self_eq_true _
                simp only [List.filter_singleton, hacc, cond_true, List.length_append,
                  List.length_singleton, h3]
              · rw [dictGetD_dictSet_ne _ _ _ _ _ hs]
                have hacc : (bucketOf acc.1.source == s) = false := by
                  rw [hbucket]
                  exact beq_eq_false_iff_ne.mpr hs
                simp only [List.filter_singleton, hacc, cond_false, List.append_nil]
                exact h3 s
            · intro a ha
              have hlist : dictGetD (mark_suggested st2.app category acc.1).suggested category [] =
                  dictGetD st.app.suggested category [] ++ [acc.1] := by
                rw [mark_suggested_titles st2.app category acc.1 hsug2, happ]
              rw [hlist]
              rcases List.mem_append.mp ha with ha1 | ha1
              · rcases h4 a ha1 with ⟨x, hx, hxt⟩
                exact ⟨x, List.mem_append_left _ hx, hxt⟩
              · rw [List.mem_singleton.mp ha1]
                exact ⟨acc.1, List.mem_append_right _ (by simp), rfl⟩
            · rw [List.pairwise_append]
              refine ⟨h5, by simp, ?_⟩
              intro a ha b hb
              rw [List.mem_singleton.mp hb]
              intro heq
              rcases h4 a ha with ⟨x, hx, hxt⟩
              exact hnotitle x hx (hxt.trans heq)
          | none =>
            dsimp only
            have happ2 : st2.app = st.app := by
              have := scanItems_app search today category
                (dictGetD itemsBySource ((s0 :: ss).getD (idx % (s0 :: ss).length) s0) []) st
              rw [hscan] at this
              exact this
            have hinv2 : SelInv category n items_per_source sel counts st2 := by
              refine ⟨h1, h2, h3, ?_, h5⟩
              intro a ha
              rw [happ2]
              exact h4 a ha
            by_cases hempty : (s0 :: ss).erase ((s0 :: ss).getD (idx % (s0 :: ss).length) s0) = []
            · rw [if_pos hempty]
              exact hinv2
            · rw [if_neg hempty]
              exact pickLoop_inv search today category itemsBySource n items_per_source hgroup
                fuel sel counts _ (idx + 1) st2 hinv2
    · rw [if_neg hlen]
      exact hinv

/-! ## Claim C1 (balanced selection bounds) -/

/-- Claim C1: every balanced-selection call returns at most `n` items and,
for every source bucket, at most `items_per_source` items originating
from that bucket; and in the concrete configuration of 3 sources offering
5, 4 and 6 immediately-available, non-suggested, non-blacklisted
candidates with n = 12 and items_per_source = 4, exactly 4 items are
accepted from each source. -/
theorem c1_balanced_selection :
    (∀ (search : List Char → List Hit) (today : PyDate) (st : SelState)
        (items : List Item) (category : List Char) (n items_per_source : Nat),
      (pick_balanced_items search today st items category n items_per_source).length ≤ n ∧
      ∀ s, ((pick_balanced_items search today st items category n items_per_source).filter
          fun a => bucketOf a.1.source == s).length ≤ items_per_source) ∧
    ((pick_balanced_items fixtureSearch ⟨2025, 1, 1⟩ fixtureState fixtureItems
        "albums".data 12 4).length = 12 ∧
      ((pick_balanced_items fixtureSearch ⟨2025, 1, 1⟩ fixtureState fixtureItems
          "albums".data 12 4).filter fun a => bucketOf a.1.source == "A".data).length = 4 ∧
      ((pick_balanced_items fixtureSearch ⟨2025, 1, 1⟩ fixtureState fixtureItems
          "albums".data 12 4).filter fun a => bucketOf a.1.source == "B".data).length = 4 ∧
      ((pick_balanced_items fixtureSearch ⟨2025, 1, 1⟩ fixtureState fixtureItems
          "albums".data 12 4).filter fun a => bucketOf a.1.source == "C".data).length = 4) := by
  constructor
  · intro search today st items category n ips
    unfold pick_balanced_items
    dsimp only
    by_cases hg : get_items_by_source items = []
    · rw [if_pos hg]
      exact ⟨Nat.zero_le n, fun s => Nat.zero_le ips⟩
    · rw [if_neg hg]
      have hinv := pickLoop_inv search today category (get_items_by_source items) n ips
        (get_items_by_source_ok items) (n * ((get_items_by_source items).map Prod.fst).length * 2)
        [] [] ((get_items_by_source items).map Prod.fst) 0 st
        ⟨Nat.zero_le n, fun s => Nat.zero_le ips, fun s => rfl,
          fun a ha => absurd ha (List.not_mem_nil a), List.Pairwise.nil⟩
      rcases hinv with ⟨k1, k2, k3, _, _⟩
      exact ⟨k1, fun s => by rw [k3 s]; exact k2 s⟩
  · exact ⟨by decide, by decide, by decide, by decide⟩

/-! ## Claim C10 (pairwise distinct accepted titles) -/

/-- Claim C10: within a single balanced-selection call, the returned
accepted items have pairwise distinct case-insensitive titles: every
accepted candidate is marked suggested before any later candidate is
considered, and `is_already_suggested` filters by case-insensitive title
against both the suggested and the rejected sets. -/
theorem c10_distinct_titles (search : List Char → List Hit) (today : PyDate)
    (st : SelState) (items : List Item) (category : List Char) (n items_per_source : Nat) :
    (pick_balanced_items search today st items category n items_per_source).Pairwise
      fun a b => pyLower a.1.title ≠ pyLower b.1.title := by
  unfold pick_balanced_items
  dsimp only
  by_cases hg : get_items_by_source items = []
  · rw [if_pos hg]
    exact List.Pairwise.nil
  · rw [if_neg hg]
    exact (pickLoop_inv search today category (get_items_by_source items) n items_per_source
      (get_items_by_source_ok items)
      (n * ((get_items_by_source items).map Prod.fst).length * 2)
      [] [] ((get_items_by_source items).map Prod.fst) 0 st
      ⟨Nat.zero_le n, fun s => Nat.zero_le items_per_source, fun s => rfl,
        fun a ha => absurd ha (List.not_mem_nil a), List.Pairwise.nil⟩).2.2.2.2

/-! ## Claim C4 (transport errors are not propagated) -/

/-- Claim C4 fails on the code: a transport error raised while a
candidate is evaluated is caught inside `KoelnLibrarySearch.search` and
converted into an empty hit list, so nothing is propagated to the caller
of select; the failing candidate is instead registered in the NotFound
blacklist and the run completes normally with the next candidate
accepted. -/
theorem c4_counterexample :
    koeln_search fixtureFailAttempt (build_query (fixtureItem "x1".data "S".data)) = [] ∧
    (pick_balanced_run (koeln_search fixtureFailAttempt) ⟨2025, 1, 1⟩ fixtureState
        [fixtureItem "x1".data "S".data, fixtureItem "x2".data "S".data]
        "albums".data 1 4).selected.map (fun a => a.1.title) = ["x2".data] ∧
    ((pick_balanced_run (koeln_search fixtureFailAttempt) ⟨2025, 1, 1⟩ fixtureState
        [fixtureItem "x1".data "S".data, fixtureItem "x2".data "S".data]
        "albums".data 1 4).st.notFound.albums.map fun e => e.title) = ["x1".data] :=
  ⟨by decide, by decide, by decide⟩

/-- Claim C4 (amended): a transport error from the collaborator is
swallowed inside `KoelnLibrarySearch.search`, which returns an empty hit
list; `select` therefore never sees the error:
the current candidate is treated as ZeroHits (registered in the NotFound
blacklist, availability `none`) and the selection loop continues with the
next candidate/source; nothing aborts the run and nothing reaches the
caller of select. -/
theorem c4_transport_error_swallowed
    (attempt : List Char → Except (List Char) (List Hit)) (q : List Char) (e : List Char)
    (h : attempt q = Except.error e) :
    koeln_search attempt q = [] ∧
    ∀ (today : PyDate) (category : List Char) (st : SelState) (item : Item),
      build_query item = q →
      borrowed_is_blacklisted st.borrowed item.title item.author today = false →
      check_availability (koeln_search attempt) today category st item =
        ({ st with notFound := (nf_add_to_blacklist st.notFound category item
            "Keine Treffer in Bibliothekskatalog".data today) }, none) := by
  have hk : koeln_search attempt q = [] := by
    unfold koeln_search
    rw [h]
  refine ⟨hk, ?_⟩
  intro today category st item hq hbl
  unfold check_availability
  rw [hq, hk]
  dsimp only
  rw [if_neg (by simp [hbl]), if_pos rfl]

/-- Witness for `c4_transport_error_swallowed` on the concrete failing
transport. -/
theorem c4_transport_error_swallowed_witness :
    koeln_search fixtureFailAttempt (build_query (fixtureItem "x1".data "S".data)) = [] ∧
    check_availability (koeln_search fixtureFailAttempt) ⟨2025, 1, 1⟩ "albums".data
        fixtureState (fixtureItem "x1".data "S".data) =
      ({ fixtureState with notFound := (nf_add_to_blacklist fixtureState.notFound
          "albums".data (fixtureItem "x1".data "S".data)
          "Keine Treffer in Bibliothekskatalog".data ⟨2025, 1, 1⟩) }, none) :=
  ⟨(c4_transport_error_swallowed fixtureFailAttempt
      (build_query (fixtureItem "x1".data "S".data)) "timeout".data rfl).1,
    (c4_transport_error_swallowed fixtureFailAttempt
      (build_query (fixtureItem "x1".data "S".data)) "timeout".data rfl).2
      ⟨2025, 1, 1⟩ "albums".data fixtureState (fixtureItem "x1".data "S".data) rfl
      (by decide)⟩

end LibRec
